import Mathlib

/-!
Verification of the pipeline shell in `src/main.rs`.

The shell reads a line, splits it on the pipe separator into stages,
expands each stage's arguments (`expand_args`), dispatches the built-ins
`cd` (via `resolve_cd`) and `exit`, and otherwise spawns external
processes, wiring the previous stage's piped stdout into the next
stage's stdin (`shell_run`).

External effects (the `shellexpand` crate, the `glob` crate, the
filesystem, `env::set_current_dir`, and `Command::spawn`) are modelled by
an oracle structure `Env`; the executor is embedded as a deterministic
step function over an explicit state (the pending `previous_command`
child, a spawn counter used to mint fresh handles, and the working
directory), producing a trace of observable events.
-/

namespace RustShell

/-- Result of one filesystem entry enumerated by the `glob` crate:
its display string (`to_string_lossy`) and whether `is_dir()` holds. -/
structure GlobEntry where
  path : String
  isDir : Bool
deriving DecidableEq

/-- Oracle for everything outside the shell's own code:
`expandFull s` is `shellexpand::full(s)` (`none` models `Err`);
`globFn p` is `glob(p)` (`none` models an invalid pattern `Err(_)`,
`some l` the already-`flatten`ed enumeration of matches);
`setDirOk d` tells whether `env::set_current_dir(d)` succeeds;
`spawnOk k` tells whether the `k`-th spawn attempt of the line succeeds. -/
structure Env where
  expandFull : String → Option String
  globFn : String → Option (List GlobEntry)
  setDirOk : String → Bool
  spawnOk : Nat → Bool

/-- Test used by both `expand_args` and `resolve_cd`:
`expanded.contains(['*', '?', '['])`. -/
def containsWildcard (s : String) : Bool :=
  s.data.any (fun c => c == '*' || c == '?' || c == '[')

/-- Wildcard phase shared by `expand_args` (lines 55-72 of the source):
if the expanded token holds a metacharacter, glob it; each match is
pushed, and if none matched — or the pattern was invalid — the expanded
token itself is pushed. -/
def wildcardExpand (env : Env) (expanded : String) : List String :=
  if containsWildcard expanded then
    match env.globFn expanded with
    | some paths => if paths.isEmpty then [expanded] else paths.map (·.path)
    | none => [expanded]
  else
    [expanded]

/-- Expansion of one argument token: `shellexpand::full` with fallback to
the raw token on error, then the wildcard phase. -/
def expandToken (env : Env) (arg : String) : List String :=
  wildcardExpand env ((env.expandFull arg).getD arg)

/-- Embedding of `expand_args`: every token expands independently and the
results are concatenated in order. -/
def expand_args (env : Env) (args : List String) : List String :=
  args.flatMap (expandToken env)

/-- Wildcard phase of `resolve_cd` (lines 94-104 of the source): on a
metacharacter, return the first glob match that is a directory;
otherwise — no match qualifies, or the pattern is invalid — return the
expanded string itself. -/
def cdWildcard (env : Env) (expanded : String) : String :=
  if containsWildcard expanded then
    match env.globFn expanded with
    | some paths =>
      match paths.find? (·.isDir) with
      | some p => p.path
      | none => expanded
    | none => expanded
  else
    expanded

/-- Embedding of `resolve_cd`: a missing argument defaults to `"~"`,
`shellexpand::full` falls back to the raw string on error, then the
directory-seeking wildcard phase runs. -/
def resolve_cd (env : Env) (dir : Option String) : String :=
  let raw := dir.getD "~"
  cdWildcard env ((env.expandFull raw).getD raw)

/-- Embedding of Rust's `str::trim`: drop whitespace from both ends. -/
def strTrim (s : String) : String :=
  String.mk
    (((s.data.dropWhile Char.isWhitespace).reverse.dropWhile
        Char.isWhitespace).reverse)

/-- Embedding of Rust's `str::split_whitespace` used on each stage: split
at whitespace characters and keep the non-empty tokens. -/
def splitWhitespace (s : String) : List String :=
  ((s.data.splitOnP Char.isWhitespace).map String.mk).filter (fun t => t ≠ "")

/-- Embedding of the line splitter in `shell_run`:
`input.split("|").map(str::trim).filter(|s| !s.is_empty())`. -/
def splitStages (input : String) : List String :=
  (((input.data.splitOnP (fun c => c == '|')).map
      (fun l => strTrim (String.mk l))).filter (fun s => s ≠ ""))

/-- Standard-input wiring chosen for a spawned stage. -/
inductive StdinSpec where
  | inherit
  | fromPipe (h : Nat)
deriving DecidableEq

/-- Standard-output wiring chosen for a spawned stage. -/
inductive StdoutSpec where
  | inherit
  | piped
deriving DecidableEq

/-- A spawned child process handle: its identity and, when it was spawned
with `Stdio::piped()`, the pipe handle of its captured stdout
(`Child.stdout` in Rust, `None` when stdout was inherited). -/
structure Child where
  id : Nat
  stdout : Option Nat
deriving DecidableEq

/-- Observable events of one `shell_run` call. `cd target ok` is the
`env::set_current_dir` attempt (`ok = false` means the error was printed
to stderr); `spawned` records a successful spawn with its argv and
stream wiring; `spawnFailed` records a spawn error printed to stderr;
`waited` is the final blocking `wait()` (its status is discarded). -/
inductive Event where
  | cd (target : String) (ok : Bool)
  | spawned (prog : String) (argv : List String) (stdin : StdinSpec)
      (stdout : StdoutSpec) (id : Nat)
  | spawnFailed (prog : String)
  | waited (id : Nat)
deriving DecidableEq

/-- The stdin chosen for a spawned stage, from `previous_command`:
`previous_command.map_or(Stdio::inherit(), |o| Stdio::from(o.stdout.unwrap()))`.
`none` models the `unwrap` panicking because the pending child's stdout
was not piped. -/
def stdinFromPrev (prev : Option Child) : Option StdinSpec :=
  match prev with
  | none => some StdinSpec.inherit
  | some c => c.stdout.map StdinSpec.fromPipe

/-- Outcome of processing one stage. -/
inductive StageResult where
  | cont (prev : Option Child) (ctr : Nat) (cwd : String) (events : List Event)
  | exitNow
  | panic
deriving DecidableEq

/-- The spawn attempt of a non-built-in stage (lines 155-174 of the
source): stdout is piped exactly when another stage follows; on success
the fresh child becomes the pending handle, on failure the error is
printed and the pending handle is cleared. -/
def spawnStep (env : Env) (cmd : String) (argv : List String)
    (sin : StdinSpec) (hasNext : Bool) (ctr : Nat) (cwd : String) : StageResult :=
  let sout : StdoutSpec := if hasNext then .piped else .inherit
  if env.spawnOk ctr then
    .cont (some ⟨ctr, if hasNext then some ctr else none⟩) (ctr + 1) cwd
      [.spawned cmd argv sin sout ctr]
  else
    .cont none (ctr + 1) cwd [.spawnFailed cmd]

/-- One iteration of the `while let` loop of `shell_run`: parse the stage
into whitespace tokens, dispatch `cd` and `exit`, else expand the
arguments and spawn. `hasNext` is `commands.peek().is_some()`. On a
successful `cd` the working directory becomes the resolved target; on
failure the error is printed and the directory is unchanged; either way
`previous_command` is reset to `None`. -/
def stepStage (env : Env) (stage : String) (hasNext : Bool)
    (prev : Option Child) (ctr : Nat) (cwd : String) : StageResult :=
  match splitWhitespace stage with
  | [] => .cont prev ctr cwd []
  | cmd :: args =>
    if cmd = "cd" then
      let target := resolve_cd env args.head?
      if env.setDirOk target then
        .cont none ctr target [.cd target true]
      else
        .cont none ctr cwd [.cd target false]
    else if cmd = "exit" then
      .exitNow
    else
      match stdinFromPrev prev with
      | none => .panic
      | some sin => spawnStep env cmd (expand_args env args) sin hasNext ctr cwd

/-- Outcome of a whole `shell_run` call: `exited` is the `return false`
of the `exit` built-in, `completed` the normal `true` return (after the
final `wait`, when a handle was pending); `panic` models the
`stdout.unwrap()` panicking. -/
inductive RunOutcome where
  | panic
  | exited (cwd : String) (events : List Event)
  | completed (cwd : String) (events : List Event)
deriving DecidableEq

/-- The stage loop of `shell_run` followed by the final wait: after the
last stage, a still-pending child is waited on (its exit status is
ignored) and `true` is returned. -/
def runStagesAux (env : Env) :
    List String → Option Child → Nat → String → List Event → RunOutcome
  | [], prev, _, cwd, evs =>
    match prev with
    | some c => .completed cwd (evs ++ [.waited c.id])
    | none => .completed cwd evs
  | stage :: rest, prev, ctr, cwd, evs =>
    match stepStage env stage (!rest.isEmpty) prev ctr cwd with
    | .panic => .panic
    | .exitNow => .exited cwd evs
    | .cont prev' ctr' cwd' es => runStagesAux env rest prev' ctr' cwd' (evs ++ es)

/-- Embedding of `shell_run`: split the line into stages and run the loop
from the empty pipeline state. -/
def shell_run (env : Env) (input : String) (cwd : String) : RunOutcome :=
  runStagesAux env (splitStages input) none 0 cwd []

/-- The boolean `shell_run` returns: `false` exactly when `exit` fired
(`none` when the run panicked). -/
def runReturn : RunOutcome → Option Bool
  | .panic => none
  | .exited _ _ => some false
  | .completed _ _ => some true

/-- A pending handle is healthy when its captured stdout is present; the
`stdout.unwrap()` of the next stage can only panic when this fails. -/
def PrevOk (prev : Option Child) : Prop :=
  ∀ c, prev = some c → c.stdout.isSome

/-- Rewrites an outcome's event list (used to commute the event
accumulator of `runStagesAux` out of the recursion). -/
def mapOutcomeEvents (f : List Event → List Event) : RunOutcome → RunOutcome
  | .panic => .panic
  | .exited cwd evs => .exited cwd (f evs)
  | .completed cwd evs => .completed cwd (f evs)

/-- A list of events containing no `waited` event. -/
def noWaited (evs : List Event) : Prop :=
  ∀ id, Event.waited id ∉ evs

/-- In a finished run, `waited` can only stand as the very last event; a
run cut short by `exit` holds no `waited` event at all. -/
def waitedOnlyLast : RunOutcome → Prop
  | .panic => True
  | .exited _ evs => noWaited evs
  | .completed _ evs => ∀ e ∈ evs.dropLast, ∀ id, e ≠ .waited id

/-- Concrete oracle for exercising the theorems on closed inputs:
expansion is the identity, globbing matches nothing, directory changes
fail, every spawn succeeds. -/
def env0 : Env where
  expandFull := fun s => some s
  globFn := fun _ => some []
  setDirOk := fun _ => false
  spawnOk := fun _ => true

/-- Concrete oracle whose glob enumerates a directory followed by a
plain file, and whose directory changes succeed. -/
def envGlob : Env where
  expandFull := fun s => some s
  globFn := fun _ => some [⟨"sub", true⟩, ⟨"notes.txt", false⟩]
  setDirOk := fun _ => true
  spawnOk := fun _ => true

/-- Concrete oracle on which every spawn attempt fails. -/
def envNoSpawn : Env where
  expandFull := fun s => some s
  globFn := fun _ => some []
  setDirOk := fun _ => false
  spawnOk := fun _ => false

/-- Concrete oracle reproducing an expansion failure on a wildcard token:
`shellexpand::full` rejects `*$UNDEFINEDVAR` (undefined variable lookup),
while globbing that very pattern matches one directory on disk. -/
def envFallback : Env where
  expandFull := fun s => if s = "*$UNDEFINEDVAR" then none else some s
  globFn := fun p =>
    if p = "*$UNDEFINEDVAR" then some [⟨"data$UNDEFINEDVAR", true⟩] else some []
  setDirOk := fun _ => false
  spawnOk := fun _ => true

/-- Concrete oracle on which every variable expansion fails and no
pattern matches. -/
def envExpandFail : Env where
  expandFull := fun _ => none
  globFn := fun _ => some []
  setDirOk := fun _ => false
  spawnOk := fun _ => true

theorem stdinFromPrev_eq_none {prev : Option Child}
    (h : stdinFromPrev prev = none) :
    ∃ c, prev = some c ∧ c.stdout = none := by
  cases prev with
  | none => simp [stdinFromPrev] at h
  | some c =>
    refine ⟨c, rfl, ?_⟩
    cases hs : c.stdout with
    | none => rfl
    | some k => rw [stdinFromPrev, hs] at h; simp at h

/-- Exhaustive characterization of one stage step: empty parse, `cd`
success, `cd` failure, `exit`, panic on a handle without stdout,
successful spawn, or failed spawn. -/
theorem stepStage_spec (env : Env) (stage : String) (hasNext : Bool)
    (prev : Option Child) (ctr : Nat) (cwd : String) :
    stepStage env stage hasNext prev ctr cwd = .cont prev ctr cwd []
  ∨ (∃ t, env.setDirOk t = true ∧
      stepStage env stage hasNext prev ctr cwd = .cont none ctr t [.cd t true])
  ∨ (∃ t, env.setDirOk t = false ∧
      stepStage env stage hasNext prev ctr cwd = .cont none ctr cwd [.cd t false])
  ∨ stepStage env stage hasNext prev ctr cwd = .exitNow
  ∨ (∃ c, prev = some c ∧ c.stdout = none ∧
      stepStage env stage hasNext prev ctr cwd = .panic)
  ∨ (∃ cmd argv sin, stdinFromPrev prev = some sin ∧ env.spawnOk ctr = true ∧
      stepStage env stage hasNext prev ctr cwd =
        .cont (some ⟨ctr, if hasNext then some ctr else none⟩) (ctr + 1) cwd
          [.spawned cmd argv sin (if hasNext then .piped else .inherit) ctr])
  ∨ (∃ cmd, env.spawnOk ctr = false ∧
      stepStage env stage hasNext prev ctr cwd =
        .cont none (ctr + 1) cwd [.spawnFailed cmd]) := by
  unfold stepStage
  cases hsw : splitWhitespace stage with
  | nil => exact Or.inl rfl
  | cons cmd args =>
    by_cases hcd : cmd = "cd"
    · by_cases hdir : env.setDirOk (resolve_cd env args.head?) = true
      · refine Or.inr (Or.inl ⟨resolve_cd env args.head?, hdir, ?_⟩)
        simp [hcd, hdir]
      · refine Or.inr (Or.inr (Or.inl ⟨resolve_cd env args.head?, by simpa using hdir, ?_⟩))
        simp [hcd, hdir]
    · by_cases hex : cmd = "exit"
      · refine Or.inr (Or.inr (Or.inr (Or.inl ?_)))
        simp [hcd, hex]
      · cases hsin : stdinFromPrev prev with
        | none =>
          obtain ⟨c, hc, hcs⟩ := stdinFromPrev_eq_none hsin
          refine Or.inr (Or.inr (Or.inr (Or.inr (Or.inl ⟨c, hc, hcs, ?_⟩))))
          simp [hcd, hex, hsin]
        | some sin =>
          by_cases hok : env.spawnOk ctr = true
          · refine Or.inr (Or.inr (Or.inr (Or.inr (Or.inr (Or.inl
              ⟨cmd, expand_args env args, sin, rfl, hok, ?_⟩)))))
            simp [hcd, hex, hsin, spawnStep, hok]
          · refine Or.inr (Or.inr (Or.inr (Or.inr (Or.inr (Or.inr
              ⟨cmd, by simpa using hok, ?_⟩)))))
            simp [hcd, hex, hsin, spawnStep, hok]

/-- No single stage step ever emits a `waited` event: waiting happens only
after the last stage. -/
theorem stepStage_no_waited (env : Env) (stage : String) (hasNext : Bool)
    (prev : Option Child) (ctr : Nat) (cwd : String) (prev' : Option Child)
    (ctr' : Nat) (cwd' : String) (es : List Event)
    (h : stepStage env stage hasNext prev ctr cwd = .cont prev' ctr' cwd' es) :
    ∀ id, Event.waited id ∉ es := by
  intro id
  rcases stepStage_spec env stage hasNext prev ctr cwd with
    heq | ⟨t, _, heq⟩ | ⟨t, _, heq⟩ | heq | ⟨c, _, _, heq⟩ |
    ⟨cmd, argv, sin, _, _, heq⟩ | ⟨cmd, _, heq⟩
  · rw [heq] at h; cases h; simp
  · rw [heq] at h; cases h; simp
  · rw [heq] at h; cases h; simp
  · rw [heq] at h; exact absurd h (by simp)
  · rw [heq] at h; exact absurd h (by simp)
  · rw [heq] at h; cases h; simp
  · rw [heq] at h; cases h; simp

/-- A stage step preserves handle health: with another stage ahead,
whatever pending handle survives has a piped stdout. -/
theorem stepStage_prevOk (env : Env) (stage : String)
    (prev : Option Child) (ctr : Nat) (cwd : String) (prev' : Option Child)
    (ctr' : Nat) (cwd' : String) (es : List Event) (hp : PrevOk prev)
    (h : stepStage env stage true prev ctr cwd = .cont prev' ctr' cwd' es) :
    PrevOk prev' := by
  rcases stepStage_spec env stage true prev ctr cwd with
    heq | ⟨t, _, heq⟩ | ⟨t, _, heq⟩ | heq | ⟨c, _, _, heq⟩ |
    ⟨cmd, argv, sin, _, _, heq⟩ | ⟨cmd, _, heq⟩
  · rw [heq] at h; cases h; exact hp
  · rw [heq] at h; cases h; intro c hc; cases hc
  · rw [heq] at h; cases h; intro c hc; cases hc
  · rw [heq] at h; exact absurd h (by simp)
  · rw [heq] at h; exact absurd h (by simp)
  · rw [heq] at h; cases h; intro c hc; cases hc; rfl
  · rw [heq] at h; cases h; intro c hc; cases hc

/-- A healthy pending handle rules out the panic outcome of one step. -/
theorem stepStage_no_panic (env : Env) (stage : String) (hasNext : Bool)
    (prev : Option Child) (ctr : Nat) (cwd : String) (hp : PrevOk prev)
    (h : stepStage env stage hasNext prev ctr cwd = .panic) : False := by
  rcases stepStage_spec env stage hasNext prev ctr cwd with
    heq | ⟨t, _, heq⟩ | ⟨t, _, heq⟩ | heq | ⟨c, hc, hcs, heq⟩ |
    ⟨cmd, argv, sin, _, _, heq⟩ | ⟨cmd, _, heq⟩
  · rw [heq] at h; exact absurd h (by simp)
  · rw [heq] at h; exact absurd h (by simp)
  · rw [heq] at h; exact absurd h (by simp)
  · rw [heq] at h; exact absurd h (by simp)
  · have := hp c hc
    rw [hcs] at this
    exact absurd this (by simp)
  · rw [heq] at h; exact absurd h (by simp)
  · rw [heq] at h; exact absurd h (by simp)

theorem runStagesAux_cons_panic (env : Env) (stage : String)
    (rest : List String) (prev : Option Child) (ctr : Nat) (cwd : String)
    (evs : List Event)
    (h : stepStage env stage (!rest.isEmpty) prev ctr cwd = .panic) :
    runStagesAux env (stage :: rest) prev ctr cwd evs = .panic := by
  simp only [runStagesAux]
  rw [h]

theorem runStagesAux_cons_exit (env : Env) (stage : String)
    (rest : List String) (prev : Option Child) (ctr : Nat) (cwd : String)
    (evs : List Event)
    (h : stepStage env stage (!rest.isEmpty) prev ctr cwd = .exitNow) :
    runStagesAux env (stage :: rest) prev ctr cwd evs = .exited cwd evs := by
  simp only [runStagesAux]
  rw [h]

theorem runStagesAux_cons_cont (env : Env) (stage : String)
    (rest : List String) (prev : Option Child) (ctr : Nat) (cwd : String)
    (evs : List Event) (prev' : Option Child) (ctr' : Nat) (cwd' : String)
    (es : List Event)
    (h : stepStage env stage (!rest.isEmpty) prev ctr cwd = .cont prev' ctr' cwd' es) :
    runStagesAux env (stage :: rest) prev ctr cwd evs =
      runStagesAux env rest prev' ctr' cwd' (evs ++ es) := by
  simp only [runStagesAux]
  rw [h]

/-- The event accumulator of the stage loop commutes out of the
recursion. -/
theorem runStagesAux_shift (env : Env) (stages : List String) :
    ∀ prev ctr cwd evs,
      runStagesAux env stages prev ctr cwd evs =
        mapOutcomeEvents (fun d => evs ++ d)
          (runStagesAux env stages prev ctr cwd []) := by
  induction stages with
  | nil =>
    intro prev ctr cwd evs
    cases prev <;> simp [runStagesAux, mapOutcomeEvents]
  | cons stage rest ih =>
    intro prev ctr cwd evs
    cases hst : stepStage env stage (!rest.isEmpty) prev ctr cwd with
    | panic =>
      rw [runStagesAux_cons_panic env stage rest prev ctr cwd evs hst,
        runStagesAux_cons_panic env stage rest prev ctr cwd [] hst]
      rfl
    | exitNow =>
      rw [runStagesAux_cons_exit env stage rest prev ctr cwd evs hst,
        runStagesAux_cons_exit env stage rest prev ctr cwd [] hst]
      simp [mapOutcomeEvents]
    | cont prev' ctr' cwd' es =>
      rw [runStagesAux_cons_cont env stage rest prev ctr cwd evs prev' ctr' cwd' es hst,
        runStagesAux_cons_cont env stage rest prev ctr cwd [] prev' ctr' cwd' es hst,
        List.nil_append, ih prev' ctr' cwd' (evs ++ es), ih prev' ctr' cwd' es]
      cases runStagesAux env rest prev' ctr' cwd' [] <;>
        simp [mapOutcomeEvents, List.append_assoc]

/-- The stage loop never reaches the modelled `stdout.unwrap()` panic
when the pending handle (if any) has a piped stdout. -/
theorem runStagesAux_no_panic (env : Env) (stages : List String) :
    ∀ prev ctr cwd evs, PrevOk prev →
      runStagesAux env stages prev ctr cwd evs ≠ .panic := by
  induction stages with
  | nil =>
    intro prev ctr cwd evs _
    cases prev <;> simp [runStagesAux]
  | cons stage rest ih =>
    intro prev ctr cwd evs hp
    simp only [runStagesAux]
    cases hst : stepStage env stage (!rest.isEmpty) prev ctr cwd with
    | panic => exact (stepStage_no_panic env stage _ prev ctr cwd hp hst).elim
    | exitNow => simp
    | cont prev' ctr' cwd' es =>
      cases rest with
      | nil => cases prev' <;> simp [runStagesAux]
      | cons r rs =>
        exact ih prev' ctr' cwd' (evs ++ es)
          (stepStage_prevOk env stage prev ctr cwd prev' ctr' cwd' es hp
            (by simpa using hst))

theorem waitedOnlyLast_prepend (es : List Event) (X : RunOutcome)
    (hes : noWaited es) (h : waitedOnlyLast X) :
    waitedOnlyLast (mapOutcomeEvents (fun d => es ++ d) X) := by
  cases X with
  | panic => trivial
  | exited cwd evs =>
    intro id hid
    rcases List.mem_append.mp hid with hin | hin
    · exact hes id hin
    · exact h id hin
  | completed cwd evs =>
    intro e he id hee
    by_cases hevs : evs = []
    · subst hevs
      have h1 : e ∈ es := List.dropLast_subset _ (by simpa using he)
      exact hes id (hee ▸ h1)
    · have he2 : e ∈ es ++ evs.dropLast := by
        rw [← List.dropLast_append_of_ne_nil es hevs]
        exact he
      rcases List.mem_append.mp he2 with hin | hin
      · exact hes id (hee ▸ hin)
      · exact h e hin id hee

/-- Waiting happens at most once per line, and only as the last event of
a completed run. -/
theorem runStagesAux_waitedOnlyLast (env : Env) (stages : List String) :
    ∀ prev ctr cwd, waitedOnlyLast (runStagesAux env stages prev ctr cwd []) := by
  induction stages with
  | nil =>
    intro prev ctr cwd
    cases prev with
    | none => intro e he id; simp at he
    | some c => intro e he id; simp [runStagesAux] at he
  | cons stage rest ih =>
    intro prev ctr cwd
    cases hst : stepStage env stage (!rest.isEmpty) prev ctr cwd with
    | panic => rw [runStagesAux_cons_panic env stage rest prev ctr cwd [] hst]; trivial
    | exitNow =>
      rw [runStagesAux_cons_exit env stage rest prev ctr cwd [] hst]
      intro id hid
      simp at hid
    | cont prev' ctr' cwd' es =>
      rw [runStagesAux_cons_cont env stage rest prev ctr cwd [] prev' ctr' cwd' es hst,
        List.nil_append, runStagesAux_shift env rest prev' ctr' cwd' es]
      exact waitedOnlyLast_prepend es _
        (fun id => stepStage_no_waited env stage _ prev ctr cwd prev' ctr' cwd' es hst id)
        (ih prev' ctr' cwd')

/-- A stage whose first token is `exit` makes the loop return `false` at
once. -/
theorem stepStage_exit (env : Env) (stage : String) (hasNext : Bool)
    (prev : Option Child) (ctr : Nat) (cwd : String)
    (h : (splitWhitespace stage).head? = some "exit") :
    stepStage env stage hasNext prev ctr cwd = .exitNow := by
  unfold stepStage
  cases hsw : splitWhitespace stage with
  | nil => rw [hsw] at h; simp at h
  | cons cmd args =>
    rw [hsw] at h
    simp only [List.head?] at h
    cases h
    simp

/-- Reaching a stage whose first token is `exit` ends the whole run with
the events accumulated so far: the outcome does not depend on what
follows that stage (nor on its own arguments), and no further `waited`
event is recorded. -/
theorem runStagesAux_exit (env : Env) (pre : List String) :
    ∀ stage stage' post post' prev ctr cwd evs,
      (splitWhitespace stage).head? = some "exit" →
      (splitWhitespace stage').head? = some "exit" →
      PrevOk prev →
      ∃ cwd' evs',
        runStagesAux env (pre ++ stage :: post) prev ctr cwd evs =
          .exited cwd' evs' ∧
        runStagesAux env (pre ++ stage' :: post') prev ctr cwd evs =
          .exited cwd' evs' ∧
        ∀ id, Event.waited id ∈ evs' → Event.waited id ∈ evs := by
  induction pre with
  | nil =>
    intro stage stage' post post' prev ctr cwd evs h h' hp
    simp only [List.nil_append, runStagesAux,
      stepStage_exit env stage _ prev ctr cwd h,
      stepStage_exit env stage' _ prev ctr cwd h']
    exact ⟨cwd, evs, rfl, rfl, fun id hid => hid⟩
  | cons p pre ih =>
    intro stage stage' post post' prev ctr cwd evs h h' hp
    have hb : (!(pre ++ stage :: post).isEmpty) = true := by simp
    have hb' : (!(pre ++ stage' :: post').isEmpty) = true := by simp
    cases hst : stepStage env p true prev ctr cwd with
    | panic => exact (stepStage_no_panic env p true prev ctr cwd hp hst).elim
    | exitNow =>
      refine ⟨cwd, evs, ?_, ?_, fun id hid => hid⟩
      · rw [List.cons_append,
          runStagesAux_cons_exit env p (pre ++ stage :: post) prev ctr cwd evs
            (by rw [hb]; exact hst)]
      · rw [List.cons_append,
          runStagesAux_cons_exit env p (pre ++ stage' :: post') prev ctr cwd evs
            (by rw [hb']; exact hst)]
    | cont prev' ctr' cwd' es =>
      have hp' := stepStage_prevOk env p prev ctr cwd prev' ctr' cwd' es hp hst
      obtain ⟨cwd2, evs2, h1, h2, h3⟩ :=
        ih stage stage' post post' prev' ctr' cwd' (evs ++ es) h h' hp'
      refine ⟨cwd2, evs2, ?_, ?_, fun id hid => ?_⟩
      · rw [List.cons_append,
          runStagesAux_cons_cont env p (pre ++ stage :: post) prev ctr cwd evs
            prev' ctr' cwd' es (by rw [hb]; exact hst)]
        exact h1
      · rw [List.cons_append,
          runStagesAux_cons_cont env p (pre ++ stage' :: post') prev ctr cwd evs
            prev' ctr' cwd' es (by rw [hb']; exact hst)]
        exact h2
      · rcases List.mem_append.mp (h3 id hid) with hin | hin
        · exact hin
        · exact absurd hin
            (stepStage_no_waited env p true prev ctr cwd prev' ctr' cwd' es hst id)

end RustShell

namespace RustShell

/-- C5: a raw token whose variable/home-expanded form holds a wildcard
metacharacter expands, when the glob yields at least one entry, to
exactly those entries in enumeration order in place of the one token
(the pattern string is discarded); when the glob yields no entry, or the
pattern is invalid, it expands to the single variable-expanded token. -/
theorem expand_args_wildcard (env : Env) (arg expanded : String)
    (hexp : (env.expandFull arg).getD arg = expanded)
    (hwild : containsWildcard expanded = true) :
    (∀ entries, env.globFn expanded = some entries → entries ≠ [] →
        expandToken env arg = entries.map (fun e => e.path)) ∧
    (env.globFn expanded = some [] → expandToken env arg = [expanded]) ∧
    (env.globFn expanded = none → expandToken env arg = [expanded]) ∧
    (∀ pre post, expand_args env (pre ++ arg :: post) =
        expand_args env pre ++ expandToken env arg ++ expand_args env post) := by
  refine ⟨?_, ?_, ?_, ?_⟩
  · intro entries hg hne
    simp only [expandToken, hexp, wildcardExpand, if_pos hwild, hg]
    simp [List.isEmpty_eq_false, hne]
  · intro hg
    simp only [expandToken, hexp, wildcardExpand, if_pos hwild, hg]
    simp
  · intro hg
    simp only [expandToken, hexp, wildcardExpand, if_pos hwild, hg]
  · intro pre post
    simp [expand_args, List.flatMap_append]

/-- Witness for C5 on a concrete oracle: `s*` expands to the two matched
entries, replacing the pattern. -/
theorem expand_args_wildcard_witness :
    containsWildcard "s*" = true ∧
    expandToken envGlob "s*" = ["sub", "notes.txt"] :=
  ⟨by decide,
   ((expand_args_wildcard envGlob "s*" "s*" (by decide) (by decide)).1
      [⟨"sub", true⟩, ⟨"notes.txt", false⟩] (by decide) (by decide)).trans
     (by decide)⟩

/-- C7: `resolve_cd` without an argument targets the home shorthand `~`;
on a wildcard-bearing expanded target it returns the first glob match in
enumeration order that is a directory, and falls back to the literal
expanded string when no match is a directory or matching fails. -/
theorem resolve_cd_resolution (env : Env) :
    (resolve_cd env none = resolve_cd env (some "~")) ∧
    (∀ raw expanded, (env.expandFull raw).getD raw = expanded →
      containsWildcard expanded = true →
      (∀ entries p, env.globFn expanded = some entries →
          entries.find? (fun e => e.isDir) = some p →
          resolve_cd env (some raw) = p.path) ∧
      (∀ entries, env.globFn expanded = some entries →
          entries.find? (fun e => e.isDir) = none →
          resolve_cd env (some raw) = expanded) ∧
      (env.globFn expanded = none → resolve_cd env (some raw) = expanded)) := by
  refine ⟨rfl, ?_⟩
  intro raw expanded hexp hwild
  refine ⟨?_, ?_, ?_⟩
  · intro entries p hg hfind
    simp only [resolve_cd, Option.getD_some, hexp, cdWildcard, if_pos hwild,
      hg, hfind]
  · intro entries hg hfind
    simp only [resolve_cd, Option.getD_some, hexp, cdWildcard, if_pos hwild,
      hg, hfind]
  · intro hg
    simp only [resolve_cd, Option.getD_some, hexp, cdWildcard, if_pos hwild, hg]

/-- Witness for C7 on a concrete oracle: the first enumerated entry that
is a directory wins. -/
theorem resolve_cd_resolution_witness :
    resolve_cd envGlob (some "s*") = "sub" :=
  ((((resolve_cd_resolution envGlob).2 "s*" "s*" (by decide) (by decide)).1
      [⟨"sub", true⟩, ⟨"notes.txt", false⟩] ⟨"sub", true⟩ (by decide)
      (by decide)).trans (by decide))

/-- C9 is refuted as stated: when the variable expansion of a token fails
the code falls back to the raw token but still runs wildcard matching on
it, so the output need not be the single original token. Concretely, on
`*$UNDEFINEDVAR` (expansion fails, glob matches a directory) both
`expand_args` and `resolve_cd` return the matched entry instead. -/
theorem expand_fallback_cx :
    envFallback.expandFull "*$UNDEFINEDVAR" = none ∧
    expand_args envFallback ["*$UNDEFINEDVAR"] ≠ ["*$UNDEFINEDVAR"] ∧
    resolve_cd envFallback (some "*$UNDEFINEDVAR") ≠ "*$UNDEFINEDVAR" := by
  decide

/-- C9 (amended): when variable/home expansion of a token fails, the raw
token itself is used in place of the expanded string — the failure is
never surfaced and never aborts the pipeline — and subsequent wildcard
processing runs on it; in particular a failing token with no wildcard
metacharacter comes out as the single unchanged token (and as the
literal `cd` target). -/
theorem expand_fallback_amended (env : Env) (arg : String)
    (hfail : env.expandFull arg = none) :
    expandToken env arg = wildcardExpand env arg ∧
    (containsWildcard arg = false → expandToken env arg = [arg]) ∧
    resolve_cd env (some arg) = cdWildcard env arg ∧
    (containsWildcard arg = false → resolve_cd env (some arg) = arg) := by
  have h1 : expandToken env arg = wildcardExpand env arg := by
    simp only [expandToken, hfail, Option.getD_none]
  have h3 : resolve_cd env (some arg) = cdWildcard env arg := by
    simp only [resolve_cd, Option.getD_some, hfail, Option.getD_none]
  refine ⟨h1, fun hnw => ?_, h3, fun hnw => ?_⟩
  · rw [h1]
    simp [wildcardExpand, hnw]
  · rw [h3]
    simp [cdWildcard, hnw]

/-- Witness for the amended C9 on a concrete oracle: a plain token whose
expansion fails passes through unchanged. -/
theorem expand_fallback_witness :
    envExpandFail.expandFull "notes" = none ∧
    expandToken envExpandFail "notes" = ["notes"] ∧
    resolve_cd envExpandFail (some "notes") = "notes" :=
  ⟨rfl,
   (expand_fallback_amended envExpandFail "notes" rfl).2.1 (by decide),
   (expand_fallback_amended envExpandFail "notes" rfl).2.2.2 (by decide)⟩

end RustShell

namespace RustShell

/-- C1: a stage whose first token is neither built-in (`cd`, `exit`)
spawns with stdin wired to the pending previous stage's piped stdout
when such a handle is pending and to the interpreter's inherited stdin
otherwise, and with stdout a fresh connected pipe exactly when at least
one further stage follows (inherited otherwise). -/
theorem spawn_wiring (env : Env) (stage cmd : String) (args : List String)
    (stages : List String) (prev : Option Child) (ctr : Nat) (cwd : String)
    (evs : List Event) (sin : StdinSpec)
    (hparse : splitWhitespace stage = cmd :: args)
    (hcd : cmd ≠ "cd") (hexit2 : cmd ≠ "exit")
    (hsin : stdinFromPrev prev = some sin)
    (hok : env.spawnOk ctr = true) :
    runStagesAux env (stage :: stages) prev ctr cwd evs =
      runStagesAux env stages
        (some ⟨ctr, if stages.isEmpty then none else some ctr⟩) (ctr + 1) cwd
        (evs ++ [.spawned cmd (expand_args env args) sin
          (if stages.isEmpty then StdoutSpec.inherit else StdoutSpec.piped) ctr]) ∧
    (prev = none → sin = .inherit) ∧
    (∀ c h, prev = some c → c.stdout = some h → sin = .fromPipe h) := by
  refine ⟨?_, ?_, ?_⟩
  · have hstep : stepStage env stage (!stages.isEmpty) prev ctr cwd =
        .cont (some ⟨ctr, if stages.isEmpty then none else some ctr⟩) (ctr + 1) cwd
          [.spawned cmd (expand_args env args) sin
            (if stages.isEmpty then StdoutSpec.inherit else StdoutSpec.piped) ctr] := by
      cases hs : stages.isEmpty <;>
        simp [stepStage, hparse, hcd, hexit2, hsin, spawnStep, hok, hs]
    exact runStagesAux_cons_cont env stage stages prev ctr cwd evs _ _ _ _ hstep
  · intro hp
    subst hp
    injection hsin with h
    exact h.symm
  · intro c h hc hcs
    rw [hc] at hsin
    simp only [stdinFromPrev, hcs, Option.map_some'] at hsin
    injection hsin with h2
    exact h2.symm

/-- Witness for C1: with a pending piped handle and one further stage,
the spawned stage reads from that pipe and writes to a fresh pipe. -/
theorem spawn_wiring_witness :
    splitWhitespace "cat x" = ["cat", "x"] ∧
    runStagesAux env0 ["cat x", "wc"] (some ⟨0, some 0⟩) 1 "/" [] =
      runStagesAux env0 ["wc"] (some ⟨1, some 1⟩) 2 "/"
        [.spawned "cat" ["x"] (.fromPipe 0) .piped 1] :=
  ⟨by decide,
   ((spawn_wiring env0 "cat x" "cat" ["x"] ["wc"] (some ⟨0, some 0⟩) 1 "/" []
      (.fromPipe 0) (by decide) (by decide) (by decide) (by decide)
      (by decide)).1).trans (by decide)⟩

/-- C6: a spawn failure prints the error, drops any pending handle, and
the loop goes on to the remaining stages with no pending handle, so a
downstream stage falls back to inherited stdin; neither the pipeline nor
the session is aborted. -/
theorem spawn_failure_recovery (env : Env) (stage cmd : String)
    (args stages : List String) (prev : Option Child) (ctr : Nat)
    (cwd : String) (evs : List Event) (sin : StdinSpec)
    (hparse : splitWhitespace stage = cmd :: args)
    (hcd : cmd ≠ "cd") (hexit2 : cmd ≠ "exit")
    (hsin : stdinFromPrev prev = some sin)
    (hfail : env.spawnOk ctr = false) :
    runStagesAux env (stage :: stages) prev ctr cwd evs =
      runStagesAux env stages none (ctr + 1) cwd (evs ++ [.spawnFailed cmd]) ∧
    stdinFromPrev (none : Option Child) = some StdinSpec.inherit := by
  refine ⟨?_, rfl⟩
  have hstep : stepStage env stage (!stages.isEmpty) prev ctr cwd =
      .cont none (ctr + 1) cwd [.spawnFailed cmd] := by
    simp [stepStage, hparse, hcd, hexit2, hsin, spawnStep, hfail]
  exact runStagesAux_cons_cont env stage stages prev ctr cwd evs _ _ _ _ hstep

/-- Witness for C6: a failed spawn emits the failure event and the next
stage then runs with no pending handle. -/
theorem spawn_failure_recovery_witness :
    runStagesAux envNoSpawn ["nosuch", "wc"] none 0 "/" [] =
      runStagesAux envNoSpawn ["wc"] none 1 "/" [.spawnFailed "nosuch"] :=
  ((spawn_failure_recovery envNoSpawn "nosuch" "nosuch" [] ["wc"] none 0 "/" []
    .inherit (by decide) (by decide) (by decide) (by decide) (by decide)).1).trans
    (by decide)

/-- C8: when changing the working directory fails the error is reported,
the process-wide working directory stays unchanged, and the loop simply
moves on to the remaining stages (pipeline and session continue). -/
theorem cd_failure_keeps_cwd (env : Env) (stage : String)
    (args stages : List String) (prev : Option Child) (ctr : Nat)
    (cwd : String) (evs : List Event) (target : String)
    (hparse : splitWhitespace stage = "cd" :: args)
    (htarget : resolve_cd env args.head? = target)
    (hfail : env.setDirOk target = false) :
    runStagesAux env (stage :: stages) prev ctr cwd evs =
      runStagesAux env stages none ctr cwd (evs ++ [.cd target false]) := by
  have hstep : stepStage env stage (!stages.isEmpty) prev ctr cwd =
      .cont none ctr cwd [.cd target false] := by
    simp [stepStage, hparse, htarget, hfail]
  exact runStagesAux_cons_cont env stage stages prev ctr cwd evs _ _ _ _ hstep

/-- Witness for C8: a failed `cd` leaves the directory state untouched
and the run completes normally. -/
theorem cd_failure_keeps_cwd_witness :
    runStagesAux env0 ["cd missing"] none 0 "/home" [] =
      runStagesAux env0 [] none 0 "/home" [.cd "missing" false] ∧
    shell_run env0 "cd missing" "/home" =
      .completed "/home" [.cd "missing" false] :=
  ⟨(cd_failure_keeps_cwd env0 "cd missing" ["missing"] [] none 0 "/home" []
      "missing" (by decide) (by decide) (by decide)).trans (by decide),
   by decide⟩

end RustShell

namespace RustShell

/-- C2: after all stages, a still-pending handle is waited on — exactly
that child, with the exit status ignored — and `true` is returned; no
`waited` event ever occurs except as the last event of a completed run,
so no intermediate stage is individually waited on. -/
theorem final_wait_only (env : Env) :
    (∀ (c : Child) (ctr : Nat) (cwd : String) (evs : List Event),
        runStagesAux env [] (some c) ctr cwd evs =
          .completed cwd (evs ++ [.waited c.id])) ∧
    (∀ (ctr : Nat) (cwd : String) (evs : List Event),
        runStagesAux env [] none ctr cwd evs = .completed cwd evs) ∧
    (∀ input cwd cwd2 evs, shell_run env input cwd = .completed cwd2 evs →
        runReturn (shell_run env input cwd) = some true ∧
        ∀ e ∈ evs.dropLast, ∀ id, e ≠ Event.waited id) ∧
    (∀ input cwd cwd2 evs, shell_run env input cwd = .exited cwd2 evs →
        ∀ id, Event.waited id ∉ evs) := by
  refine ⟨fun c ctr cwd evs => rfl, fun ctr cwd evs => rfl, ?_, ?_⟩
  · intro input cwd cwd2 evs heq
    refine ⟨by rw [heq]; rfl, ?_⟩
    have hW := runStagesAux_waitedOnlyLast env (splitStages input) none 0 cwd
    rw [show runStagesAux env (splitStages input) none 0 cwd [] =
      shell_run env input cwd from rfl, heq] at hW
    exact hW
  · intro input cwd cwd2 evs heq
    have hW := runStagesAux_waitedOnlyLast env (splitStages input) none 0 cwd
    rw [show runStagesAux env (splitStages input) none 0 cwd [] =
      shell_run env input cwd from rfl, heq] at hW
    exact hW

/-- Witness for C2: the two-stage pipeline waits once, on the last
spawned child only, and returns `true`. -/
theorem final_wait_only_witness :
    runStagesAux env0 [] (some ⟨1, none⟩) 2 "/" [] =
      .completed "/" [.waited 1] ∧
    (runReturn (shell_run env0 "echo hi | cat" "/") = some true ∧
      ∀ e ∈ ([.spawned "echo" ["hi"] .inherit .piped 0,
        .spawned "cat" [] (.fromPipe 0) .inherit 1,
        .waited 1] : List Event).dropLast, ∀ id, e ≠ Event.waited id) :=
  ⟨((final_wait_only env0).1 ⟨1, none⟩ 2 "/" []).trans (by decide),
   (final_wait_only env0).2.2.1 "echo hi | cat" "/" "/"
     [.spawned "echo" ["hi"] .inherit .piped 0,
      .spawned "cat" [] (.fromPipe 0) .inherit 1,
      .waited 1] (by decide)⟩

/-- C4: as soon as a stage whose first token is `exit` is reached — even
as a later stage of a multi-stage pipeline — the run returns `false`
with only the events accumulated before it: stages after it (and the
exit stage's own arguments) have no effect, no process is spawned for
that stage, and no pending handle is waited on. -/
theorem exit_short_circuit (env : Env) (pre : List String)
    (stage stage2 : String) (post post2 : List String) (prev : Option Child)
    (ctr : Nat) (cwd : String) (evs : List Event) (input : String)
    (hx : (splitWhitespace stage).head? = some "exit")
    (hx2 : (splitWhitespace stage2).head? = some "exit")
    (hprev : PrevOk prev) :
    (∃ cwd2 evs2,
      runStagesAux env (pre ++ stage :: post) prev ctr cwd evs =
        .exited cwd2 evs2 ∧
      runStagesAux env (pre ++ stage2 :: post2) prev ctr cwd evs =
        .exited cwd2 evs2 ∧
      runReturn (runStagesAux env (pre ++ stage :: post) prev ctr cwd evs) =
        some false ∧
      ∀ id, Event.waited id ∈ evs2 → Event.waited id ∈ evs) ∧
    (splitStages input = pre ++ stage :: post →
      ∃ cwd3 evs3, shell_run env input cwd = .exited cwd3 evs3 ∧
        runReturn (shell_run env input cwd) = some false ∧
        ∀ id, Event.waited id ∉ evs3) := by
  constructor
  · obtain ⟨cwd2, evs2, h1, h2, h3⟩ :=
      runStagesAux_exit env pre stage stage2 post post2 prev ctr cwd evs hx hx2
        hprev
    exact ⟨cwd2, evs2, h1, h2, by rw [h1]; rfl, h3⟩
  · intro hsplit
    obtain ⟨cwd3, evs3, h1, _, h3⟩ :=
      runStagesAux_exit env pre stage stage post post none 0 cwd [] hx hx
        (fun c h => by cases h)
    have hrun : shell_run env input cwd = .exited cwd3 evs3 := by
      rw [shell_run, hsplit]
      exact h1
    refine ⟨cwd3, evs3, hrun, by rw [hrun]; rfl, fun id hid => ?_⟩
    have := h3 id hid
    simp at this

/-- Witness for C4: `exit` in the middle of a pipeline ends the run at
once with `false`, the trailing stage never running and nothing being
waited on. -/
theorem exit_short_circuit_witness :
    ∃ cwd3 evs3, shell_run env0 "a | exit now | b" "/" = .exited cwd3 evs3 ∧
      runReturn (shell_run env0 "a | exit now | b" "/") = some false ∧
      ∀ id, Event.waited id ∉ evs3 :=
  (exit_short_circuit env0 ["a"] "exit now" "exit now" ["b"] ["b"] none 0 "/"
    [] "a | exit now | b" (by decide) (by decide) (fun c h => by cases h)).2
    (by decide)

/-- C10: the extraction `previous_command.stdout.unwrap()` can never
panic: whenever a non-built-in stage starts with a pending handle, that
child was spawned with another stage following, hence with piped stdout.
The modelled panic outcome is unreachable from the initial state for
every oracle, line and working directory. -/
theorem no_stdout_panic (env : Env) (input : String) (cwd : String) :
    shell_run env input cwd ≠ RunOutcome.panic :=
  runStagesAux_no_panic env (splitStages input) none 0 cwd []
    (fun c h => by cases h)

end RustShell

namespace RustShell

/-- C3: the pending previous-stage output handle — held in the
option-typed `previous_command`, which makes "at most one live handle"
structural — is never carried across a stage transition: after any
parsed stage the pending handle is gone or is the child freshly spawned
by that stage; a built-in (`cd`) always discards it and spawns nothing;
a non-built-in either transfers it into the spawned child's stdin or
drops it when the spawn fails. -/
theorem handle_ownership (env : Env) (stage cmd : String) (args : List String)
    (hasNext : Bool) (prev prev' : Option Child) (ctr ctr' : Nat)
    (cwd cwd' : String) (es : List Event)
    (hparse : splitWhitespace stage = cmd :: args)
    (hstep : stepStage env stage hasNext prev ctr cwd = .cont prev' ctr' cwd' es)
    (hfresh : ∀ c, prev = some c → c.id < ctr) :
    (prev' = none ∨ ∃ st, prev' = some ⟨ctr, st⟩) ∧
    (∀ c, prev = some c → prev' ≠ some c) ∧
    (cmd = "cd" → prev' = none ∧
      ∀ e ∈ es, ∀ p a si so i, e ≠ Event.spawned p a si so i) ∧
    (cmd ≠ "cd" → cmd ≠ "exit" → ∀ c hh, prev = some c → c.stdout = some hh →
      (env.spawnOk ctr = true →
        es = [Event.spawned cmd (expand_args env args) (.fromPipe hh)
          (if hasNext then StdoutSpec.piped else StdoutSpec.inherit) ctr]) ∧
      (env.spawnOk ctr = false → prev' = none)) := by
  by_cases hcd : cmd = "cd"
  · subst hcd
    by_cases hdir : env.setDirOk (resolve_cd env args.head?) = true
    · have h2 : stepStage env stage hasNext prev ctr cwd =
          .cont none ctr (resolve_cd env args.head?)
            [.cd (resolve_cd env args.head?) true] := by
        simp [stepStage, hparse, hdir]
      rw [h2] at hstep
      cases hstep
      refine ⟨Or.inl rfl, fun c hc => by simp, fun _ => ⟨rfl, by simp⟩,
        fun hne _ => absurd rfl hne⟩
    · have h2 : stepStage env stage hasNext prev ctr cwd =
          .cont none ctr cwd [.cd (resolve_cd env args.head?) false] := by
        simp [stepStage, hparse, hdir]
      rw [h2] at hstep
      cases hstep
      refine ⟨Or.inl rfl, fun c hc => by simp, fun _ => ⟨rfl, by simp⟩,
        fun hne _ => absurd rfl hne⟩
  · by_cases hex : cmd = "exit"
    · have h2 : stepStage env stage hasNext prev ctr cwd = .exitNow := by
        simp [stepStage, hparse, hcd, hex]
      rw [h2] at hstep
      exact absurd hstep (by simp)
    · cases hsin : stdinFromPrev prev with
      | none =>
        have h2 : stepStage env stage hasNext prev ctr cwd = .panic := by
          simp [stepStage, hparse, hcd, hex, hsin]
        rw [h2] at hstep
        exact absurd hstep (by simp)
      | some sin =>
        by_cases hok : env.spawnOk ctr = true
        · have h2 : stepStage env stage hasNext prev ctr cwd =
              .cont (some ⟨ctr, if hasNext then some ctr else none⟩) (ctr + 1)
                cwd [.spawned cmd (expand_args env args) sin
                  (if hasNext then StdoutSpec.piped else StdoutSpec.inherit) ctr] := by
            simp [stepStage, hparse, hcd, hex, hsin, spawnStep, hok]
          rw [h2] at hstep
          cases hstep
          refine ⟨Or.inr ⟨_, rfl⟩, ?_, fun hc => absurd hc hcd, ?_⟩
          · intro c hc heq2
            have hlt := hfresh c hc
            injection heq2 with h3
            rw [← h3] at hlt
            exact absurd hlt (by simp)
          · intro _ _ c hh hc hcs
            refine ⟨fun _ => ?_, fun hf => absurd hok (by simp [hf])⟩
            rw [hc] at hsin
            simp only [stdinFromPrev, hcs, Option.map_some'] at hsin
            cases hsin
            rfl
        · have h2 : stepStage env stage hasNext prev ctr cwd =
              .cont none (ctr + 1) cwd [.spawnFailed cmd] := by
            simp [stepStage, hparse, hcd, hex, hsin, spawnStep, hok]
          rw [h2] at hstep
          cases hstep
          refine ⟨Or.inl rfl, fun c hc => by simp, fun hc => absurd hc hcd,
            fun _ _ c hh hc hcs => ⟨fun ht => absurd ht hok, fun _ => rfl⟩⟩

/-- Witness for C3: after a final stage consumed the pending handle of
child 0, the surviving handle is the freshly spawned child, not the old
one. -/
theorem handle_ownership_witness :
    ((some ⟨1, none⟩ : Option Child) = none ∨
      ∃ st, (some ⟨1, none⟩ : Option Child) = some ⟨1, st⟩) ∧
    (∀ c, (some ⟨0, some 0⟩ : Option Child) = some c →
      (some ⟨1, none⟩ : Option Child) ≠ some c) :=
  ⟨(handle_ownership env0 "cat" "cat" [] false (some ⟨0, some 0⟩)
      (some ⟨1, none⟩) 1 2 "/" "/" [.spawned "cat" [] (.fromPipe 0) .inherit 1]
      (by decide) (by decide) (by intro c h; cases h; decide)).1,
   (handle_ownership env0 "cat" "cat" [] false (some ⟨0, some 0⟩)
      (some ⟨1, none⟩) 1 2 "/" "/" [.spawned "cat" [] (.fromPipe 0) .inherit 1]
      (by decide) (by decide) (by intro c h; cases h; decide)).2.1⟩

end RustShell
